import Mathlib

/-!
# Verification of the epub-receiver upload pipeline (`src/main.go`)

Shallow embedding of the single-file Go HTTP service.  Go strings are
modelled as `List Char`, file contents as `List Nat` (byte lists), and the
filesystem under the upload root as an association list from paths to
contents.  The handler `uploadHandler` is translated line by line from
`src/main.go`; I/O failures that Go surfaces as `error` values
(`os.Create`, `io.Copy`, `os.Remove`) are injected through an explicit
`Faults` record, and the wall clock (`time.Now()`) is an explicit
`Timestamp` argument.
-/

namespace EpubReceiver

/-- Convert a Lean string literal to the `List Char` representation used
for Go strings throughout this development. -/
def goStr (s : String) : List Char := s.data

/-- `UPLOAD_DIR` constant from `main.go`. -/
def UPLOAD_DIR : List Char := goStr "/app/uploads"

/-- `MAX_FILE_SIZE = 50 << 20` from `main.go`. -/
def MAX_FILE_SIZE : Nat := 50 * 2 ^ 20

/-- Go `strings.ToLower` restricted to its effect here.  Go lowercases by
Unicode simple case mapping; `Char.toLower` lowercases ASCII.  The two
agree on every character relevant to the only use site (the suffix test
against the ASCII string `".epub"`): no non-ASCII character has `'.'`,
`'e'`, `'p'`, `'u'` or `'b'` as its Unicode lowercase. -/
def goToLower (s : List Char) : List Char := s.map Char.toLower

/-- Go `strings.HasSuffix`. -/
def goHasSuffix (s suffix : List Char) : Bool := suffix.isSuffixOf s

/-- Decimal digit character for `d < 10` (`'0' + d`). -/
def digitChar (d : Nat) : Char := Char.ofNat (48 + d)

/-- Digit expansion with explicit fuel (`fuel > m` suffices), kept
structural so the kernel can evaluate it. -/
def natToDigitsAux : Nat → Nat → List Char
  | 0, _ => []
  | fuel + 1, m =>
    if m < 10 then [digitChar m]
    else natToDigitsAux fuel (m / 10) ++ [digitChar (m % 10)]

/-- Full decimal representation of a natural number, most significant
digit first (the digit sequence Go's `%d` and zero-padded time formatting
produce). -/
def natToDigitList (n : Nat) : List Char := natToDigitsAux (n + 1) n

/-- Zero-pad a digit list on the left to width `w` (Go's fixed-width time
formatting: pads with zeros, keeps all digits when already wider). -/
def padZeros (w : Nat) (ds : List Char) : List Char :=
  List.replicate (w - ds.length) '0' ++ ds

/-- A wall-clock instant at second resolution, the data `time.Now()`
feeds into the `"20060102_150405"` layout. -/
structure Timestamp where
  year : Nat
  month : Nat
  day : Nat
  hour : Nat
  minute : Nat
  second : Nat
deriving DecidableEq, Repr

/-- Bounds under which the fixed-width rendering below agrees with Go's
layout `"20060102_150405"` (every real clock reading satisfies them). -/
def Timestamp.Bounded (t : Timestamp) : Prop :=
  t.year < 10000 ∧ t.month < 100 ∧ t.day < 100 ∧
  t.hour < 100 ∧ t.minute < 100 ∧ t.second < 100

instance (t : Timestamp) : Decidable t.Bounded := by
  unfold Timestamp.Bounded; infer_instance

/-- `time.Now().Format("20060102_150405")` from `main.go` line 89:
four-digit year, two-digit month/day, `'_'`, two-digit hour/minute/second,
each zero-padded. -/
def fmtTimestamp (t : Timestamp) : List Char :=
  padZeros 4 (natToDigitList t.year) ++
  padZeros 2 (natToDigitList t.month) ++
  padZeros 2 (natToDigitList t.day) ++
  '_' :: (padZeros 2 (natToDigitList t.hour) ++
    padZeros 2 (natToDigitList t.minute) ++
    padZeros 2 (natToDigitList t.second))

/-- Drop trailing `'/'` characters (first loop of Go `filepath.Base`). -/
def dropTrailingSlashes (s : List Char) : List Char :=
  (s.reverse.dropWhile (fun c => c = '/')).reverse

/-- The suffix of `s` after its last `'/'` (the `strings.LastIndex`
step of Go `filepath.Base`); the whole string when it has no `'/'`. -/
def afterLastSlash : List Char → List Char
  | [] => []
  | c :: rest =>
    if rest.contains '/' then afterLastSlash rest
    else if c = '/' then rest
    else c :: rest

/-- Go `path/filepath.Base` (Unix rules): `"."` for the empty path,
`"/"` when the path is all separators, otherwise the last element after
stripping trailing separators. -/
def filepathBase (path : List Char) : List Char :=
  if path = [] then goStr "."
  else
    let p := dropTrailingSlashes path
    if p = [] then ['/']
    else afterLastSlash p

/-- Split a char list on `'/'` (used to implement `filepath.Clean`'s
lexical processing). -/
def splitSlash : List Char → List (List Char)
  | [] => [[]]
  | c :: rest =>
    if c = '/' then [] :: splitSlash rest
    else
      match splitSlash rest with
      | [] => [[c]]
      | h :: t => (c :: h) :: t

/-- One step of `filepath.Clean`'s element processing over a reversed
stack of kept elements: drop empty and `"."` elements, let `".."` pop a
preceding element (or vanish at the root of a rooted path). -/
def cleanPush (rooted : Bool) (acc : List (List Char)) (seg : List Char) :
    List (List Char) :=
  if seg = [] ∨ seg = goStr "." then acc
  else if seg = goStr ".." then
    match acc with
    | [] => if rooted then [] else [seg]
    | top :: rest => if top = goStr ".." then seg :: acc else rest
  else seg :: acc

/-- Go `path/filepath.Clean` (Unix rules), via its documented lexical
algorithm: collapse separators, drop `"."`, resolve `".."`, return `"."`
for an empty result. -/
def filepathClean (s : List Char) : List Char :=
  if s = [] then goStr "."
  else
    let rooted := s.head? = some '/'
    let segs := ((splitSlash s).foldl (cleanPush rooted) []).reverse
    let body := List.intercalate ['/'] segs
    let out := if rooted then '/' :: body else body
    if out = [] then goStr "." else out

/-- Go `path/filepath.Join` for the two-argument call in `main.go`:
join the non-empty elements with `'/'` and `Clean` the result. -/
def filepathJoin (a b : List Char) : List Char :=
  if a = [] then (if b = [] then [] else filepathClean b)
  else if b = [] then filepathClean a
  else filepathClean (a ++ '/' :: b)

/-- Stored name derivation from `main.go` lines 89–90:
`fmt.Sprintf("%s_%s", timestamp, filepath.Base(filename))`. -/
def safeName (ts : Timestamp) (filename : List Char) : List Char :=
  fmtTimestamp ts ++ '_' :: filepathBase filename

/-- Destination path derivation from `main.go` line 91:
`filepath.Join(UPLOAD_DIR, safeFilename)`. -/
def destPathOf (ts : Timestamp) (filename : List Char) : List Char :=
  filepathJoin UPLOAD_DIR (safeName ts filename)

/-- The filesystem under the upload root: association list from paths to
byte contents; the first matching entry is the file's current content. -/
def Fs : Type := List (List Char × List Nat)

/-- Content of the file at `p`, `none` when no such file exists. -/
def fsGet (fs : Fs) (p : List Char) : Option (List Nat) :=
  (List.find? (fun e => e.1 = p) fs).map (fun e => e.2)

/-- Create/truncate-and-write: the path now maps to `c`. -/
def fsSet (fs : Fs) (p : List Char) (c : List Nat) : Fs :=
  (p, c) :: fs

/-- `os.Remove`: the path no longer exists. -/
def fsRemove (fs : Fs) (p : List Char) : Fs :=
  List.filter (fun e => ¬ e.1 = p) fs

/-- The parts of an inbound HTTP request `uploadHandler` inspects.
`query_api_key` is the `api_key` query parameter (`none` when absent;
Go's `Query().Get` then yields `""`).  `bodySize` is the total request
body size in bytes.  `multipartValid` says whether the body parses as
well-formed multipart form data (given it fits the size limit), and
`epubPart` is the `"epub"` form file — declared filename and content
bytes — when that field is present. -/
structure HttpRequest where
  method : List Char
  query_api_key : Option (List Char)
  bodySize : Nat
  multipartValid : Bool
  epubPart : Option (List Char × List Nat)

/-- Go `r.URL.Query().Get("api_key")`: empty string when absent. -/
def queryGet (o : Option (List Char)) : List Char := o.getD []

/-- Injected environment failures, standing for the `error` returns of
`os.Create` (line 94), `io.Copy` (line 103, failing after the given
number of bytes were written) and `os.Remove` (line 106). -/
structure Faults where
  createFails : Bool
  copyFailsAfter : Option Nat
  removeFails : Bool

/-- The no-failure environment. -/
def Faults.none : Faults := ⟨false, Option.none, false⟩

/-- Observable outcome of one `uploadHandler` run: HTTP status, response
body, resulting filesystem, and two control-flow traces — whether the
API-key comparison was reached and whether the request body was read
(it is first consumed by `ParseMultipartForm`, line 68). -/
structure HandlerResult where
  status : Nat
  responseBody : List Char
  fs : Fs
  authChecked : Bool
  bodyRead : Bool

/-- Success payload written by `fmt.Fprintf` on line 116 of `main.go`:
`{"status": "success", "filename": "%s", "size": %d}` with the stored
name and byte count interpolated verbatim. -/
def successJson (name : List Char) (size : Nat) : List Char :=
  goStr "\x7b\"status\": \"success\", \"filename\": \"" ++ name ++
  goStr "\", \"size\": " ++ natToDigitList size ++ goStr "\x7d"

/-- `uploadHandler` from `main.go` lines 52–117, straight-line
translation.  `http.Error` bodies carry the trailing newline Go appends.
The multipart stage (lines 67–71) fails exactly when the body exceeds
`MAX_FILE_SIZE` (the `MaxBytesReader` wrapper makes `ParseMultipartForm`
error out mid-read) or the body is not valid multipart form data;
`FormFile("epub")` (line 74) fails when that field is absent.  On the
copy-failure path the partial file holds the bytes written before the
fault; `os.Remove`'s own error is discarded by the source, so a failing
remove leaves the partial file behind without changing the response. -/
def uploadHandler (apiKey : List Char) (r : HttpRequest) (ts : Timestamp)
    (f : Faults) (fs : Fs) : HandlerResult :=
  if r.method ≠ goStr "POST" then
    ⟨405, goStr "Method not allowed\n", fs, false, false⟩
  else if queryGet r.query_api_key ≠ apiKey then
    ⟨401, goStr "Invalid API key\n", fs, true, false⟩
  else if MAX_FILE_SIZE < r.bodySize ∨ r.multipartValid = false then
    ⟨400, goStr "File too large or invalid form\n", fs, true, true⟩
  else
    match r.epubPart with
    | Option.none => ⟨400, goStr "Failed to get uploaded file\n", fs, true, true⟩
    | some (filename, content) =>
      if ¬ goHasSuffix (goToLower filename) (goStr ".epub") then
        ⟨400, goStr "File must be an EPUB\n", fs, true, true⟩
      else
        let destPath := destPathOf ts filename
        if f.createFails then
          ⟨500, goStr "Failed to save file\n", fs, true, true⟩
        else
          let fsCreated := fsSet fs destPath []
          match f.copyFailsAfter with
          | some n =>
            let fsPartial := fsSet fsCreated destPath (content.take n)
            let fsCleaned :=
              if f.removeFails then fsPartial else fsRemove fsPartial destPath
            ⟨500, goStr "Failed to save file\n", fsCleaned, true, true⟩
          | Option.none =>
            ⟨200, successJson (safeName ts filename) content.length,
              fsSet fsCreated destPath content, true, true⟩

/-! ## A checker for the documented success-body shape

The spec promises the 200 body is *valid JSON* of the exact shape
`{"status": "success", "filename": "<stored-name>", "size": <bytes>}`.
`decodeSuccessBody` recognises precisely the bodies of that shape whose
`filename` member is a well-formed JSON string literal (RFC 8259: an
unescaped character is anything but `'"'`, `'\'` and controls below
`0x20`; a `'\'` starts one of the nine JSON escapes) and whose `size`
member is a digit sequence, returning the decoded filename and the digit
characters of the size. -/

/-- Decode one JSON escape character (the char after a backslash). -/
def jsonUnescape (c : Char) : Option Char :=
  if c = '"' then some '"'
  else if c = '\\' then some '\\'
  else if c = '/' then some '/'
  else if c = 'b' then some (Char.ofNat 8)
  else if c = 'f' then some (Char.ofNat 12)
  else if c = 'n' then some '\n'
  else if c = 'r' then some (Char.ofNat 13)
  else if c = 't' then some '\t'
  else Option.none

/-- Scan a JSON string literal body up to its closing quote: returns the
decoded content and the remainder after the quote, or `none` if the
input is not a well-formed literal (unescaped control char, bad escape,
missing close quote; `\u` escapes are not needed by any claim and are
rejected). -/
def scanJsonString : List Char → Option (List Char × List Char)
  | [] => Option.none
  | c :: rest =>
    if c = '"' then some ([], rest)
    else if c = '\\' then
      match rest with
      | [] => Option.none
      | e :: rest2 =>
        match jsonUnescape e with
        | Option.none => Option.none
        | some d =>
          (scanJsonString rest2).map (fun p => (d :: p.1, p.2))
    else if c.val < 32 then Option.none
    else (scanJsonString rest).map (fun p => (c :: p.1, p.2))

/-- Strip an exact prefix, returning the remainder. -/
def stripPrefixChars : List Char → List Char → Option (List Char)
  | [], s => some s
  | _ :: _, [] => Option.none
  | p :: ps, c :: cs => if p = c then stripPrefixChars ps cs else Option.none

/-- Recognise a body of the exact documented success shape: fixed
punctuation, a valid JSON string literal for `filename`, a nonempty
digit run for `size`, nothing else.  Yields the decoded filename and the
size digits. -/
def decodeSuccessBody (body : List Char) : Option (List Char × List Char) :=
  match stripPrefixChars (goStr "\x7b\"status\": \"success\", \"filename\": \"") body with
  | Option.none => Option.none
  | some r1 =>
    match scanJsonString r1 with
    | Option.none => Option.none
    | some (name, r2) =>
      match stripPrefixChars (goStr ", \"size\": ") r2 with
      | Option.none => Option.none
      | some r3 =>
        let ds := r3.takeWhile Char.isDigit
        let rest := r3.dropWhile Char.isDigit
        if ds = [] ∨ rest ≠ goStr "\x7d" then Option.none
        else some (name, ds)

/-- A character a JSON encoder would have to escape inside a string
literal; `fmt.Fprintf`'s `%s` (line 116) never escapes, so names
containing such a character break the JSON shape. -/
def jsonNeedsEscape (c : Char) : Bool := c = '"' ∨ c = '\\' ∨ c.val < 32

/-! ## Digit and timestamp lemmas -/

lemma digitChar_isDigit {d : Nat} (h : d < 10) : (digitChar d).isDigit = true := by
  interval_cases d <;> decide

lemma digitChar_inj {a b : Nat} (ha : a < 10) (hb : b < 10)
    (h : digitChar a = digitChar b) : a = b := by
  interval_cases a <;> interval_cases b <;> first | rfl | exact absurd h (by decide)

lemma natToDigitsAux_fuel {fuel m : Nat} (h : m < fuel) {fuel2 : Nat}
    (h2 : m < fuel2) : natToDigitsAux fuel m = natToDigitsAux fuel2 m := by
  induction fuel generalizing m fuel2 with
  | zero => omega
  | succ f ih =>
    cases fuel2 with
    | zero => omega
    | succ f2 =>
      rw [natToDigitsAux, natToDigitsAux]
      by_cases hm : m < 10
      · simp [hm]
      · simp only [hm, if_false]
        rw [ih (by omega) (by omega : m / 10 < f2)]

lemma natToDigitList_lt10 {n : Nat} (h : n < 10) :
    natToDigitList n = [digitChar n] := by
  rw [natToDigitList, natToDigitsAux]
  simp [h]

lemma natToDigitList_ge10 {n : Nat} (h : ¬ n < 10) :
    natToDigitList n = natToDigitList (n / 10) ++ [digitChar (n % 10)] := by
  rw [natToDigitList, natToDigitsAux, natToDigitList]
  simp only [h, if_false]
  rw [natToDigitsAux_fuel (by omega : n / 10 < n) (by omega : n / 10 < n / 10 + 1)]

lemma padZeros_two {n : Nat} (h : n < 100) :
    padZeros 2 (natToDigitList n) = [digitChar (n / 10), digitChar (n % 10)] := by
  by_cases h10 : n < 10
  · rw [natToDigitList_lt10 h10]
    have h0 : n / 10 = 0 := by omega
    have hm : n % 10 = n := by omega
    simp [padZeros, h0, hm, digitChar, List.replicate]
  · rw [natToDigitList_ge10 h10, natToDigitList_lt10 (by omega : n / 10 < 10)]
    simp [padZeros]

lemma padZeros_four {n : Nat} (h : n < 10000) :
    padZeros 4 (natToDigitList n) =
      [digitChar (n / 1000), digitChar (n / 100 % 10),
       digitChar (n / 10 % 10), digitChar (n % 10)] := by
  by_cases h10 : n < 10
  · rw [natToDigitList_lt10 h10]
    have e1 : n / 1000 = 0 := by omega
    have e2 : n / 100 % 10 = 0 := by omega
    have e3 : n / 10 % 10 = 0 := by omega
    have e4 : n % 10 = n := by omega
    simp [padZeros, e1, e2, e3, e4, digitChar, List.replicate]
  · by_cases h100 : n < 100
    · rw [natToDigitList_ge10 h10, natToDigitList_lt10 (by omega : n / 10 < 10)]
      have e1 : n / 1000 = 0 := by omega
      have e2 : n / 100 % 10 = 0 := by omega
      have e3 : n / 10 % 10 = n / 10 := by omega
      simp [padZeros, e1, e2, e3, digitChar, List.replicate]
    · by_cases h1000 : n < 1000
      · rw [natToDigitList_ge10 h10, natToDigitList_ge10 (by omega : ¬ n / 10 < 10),
          natToDigitList_lt10 (by omega : n / 10 / 10 < 10)]
        have e1 : n / 1000 = 0 := by omega
        have e2 : n / 10 / 10 = n / 100 := by omega
        have e3 : n / 100 % 10 = n / 100 := by omega
        have e4 : n / 10 % 10 = n / 10 % 10 := rfl
        simp [padZeros, e1, e2, e3, digitChar, List.replicate]
      · rw [natToDigitList_ge10 h10, natToDigitList_ge10 (by omega : ¬ n / 10 < 10),
          natToDigitList_ge10 (by omega : ¬ n / 10 / 10 < 10),
          natToDigitList_lt10 (by omega : n / 10 / 10 / 10 < 10)]
        have e1 : n / 10 / 10 / 10 = n / 1000 := by omega
        have e2 : n / 10 / 10 % 10 = n / 100 % 10 := by omega
        simp [padZeros, e1, e2]

lemma padZeros_two_inj {a b : Nat} (ha : a < 100) (hb : b < 100)
    (h : padZeros 2 (natToDigitList a) = padZeros 2 (natToDigitList b)) :
    a = b := by
  rw [padZeros_two ha, padZeros_two hb] at h
  have h1 := digitChar_inj (by omega) (by omega) (List.head_eq_of_cons_eq h)
  have h2 := digitChar_inj (by omega) (by omega)
    (List.head_eq_of_cons_eq (List.tail_eq_of_cons_eq h))
  omega

lemma padZeros_four_inj {a b : Nat} (ha : a < 10000) (hb : b < 10000)
    (h : padZeros 4 (natToDigitList a) = padZeros 4 (natToDigitList b)) :
    a = b := by
  rw [padZeros_four ha, padZeros_four hb] at h
  have h1 := digitChar_inj (by omega) (by omega) (List.head_eq_of_cons_eq h)
  replace h := List.tail_eq_of_cons_eq h
  have h2 := digitChar_inj (by omega) (by omega) (List.head_eq_of_cons_eq h)
  replace h := List.tail_eq_of_cons_eq h
  have h3 := digitChar_inj (by omega) (by omega) (List.head_eq_of_cons_eq h)
  replace h := List.tail_eq_of_cons_eq h
  have h4 := digitChar_inj (by omega) (by omega) (List.head_eq_of_cons_eq h)
  omega

/-- Shape of a bounded timestamp rendering: eight digits, `'_'`, six
digits. -/
lemma fmtTimestamp_shape {t : Timestamp} (h : t.Bounded) :
    ∃ d8 d6 : List Char,
      fmtTimestamp t = d8 ++ '_' :: d6 ∧
      d8.length = 8 ∧ d6.length = 6 ∧
      (∀ c ∈ d8, c.isDigit = true) ∧ (∀ c ∈ d6, c.isDigit = true) := by
  obtain ⟨hy, hmo, hd, hh, hmi, hs⟩ := h
  refine ⟨padZeros 4 (natToDigitList t.year) ++
      padZeros 2 (natToDigitList t.month) ++ padZeros 2 (natToDigitList t.day),
    padZeros 2 (natToDigitList t.hour) ++ padZeros 2 (natToDigitList t.minute) ++
      padZeros 2 (natToDigitList t.second), ?_, ?_, ?_, ?_, ?_⟩
  · simp [fmtTimestamp]
  · rw [padZeros_four hy, padZeros_two hmo, padZeros_two hd]; simp
  · rw [padZeros_two hh, padZeros_two hmi, padZeros_two hs]; simp
  · rw [padZeros_four hy, padZeros_two hmo, padZeros_two hd]
    intro c hc
    simp only [List.mem_append, List.mem_cons, List.mem_singleton,
      List.not_mem_nil] at hc
    rcases hc with (h | h) | h <;> rcases h with h | h | h | h | h <;>
      first
      | (subst h; exact digitChar_isDigit (by omega))
      | exact absurd h (by simp)
  · rw [padZeros_two hh, padZeros_two hmi, padZeros_two hs]
    intro c hc
    simp only [List.mem_append, List.mem_cons, List.mem_singleton,
      List.not_mem_nil] at hc
    rcases hc with (h | h) | h <;> rcases h with h | h | h <;>
      first
      | (subst h; exact digitChar_isDigit (by omega))
      | exact absurd h (by simp)

/-- Every character of a bounded rendering is a digit or `'_'`. -/
lemma fmtTimestamp_chars {t : Timestamp} (h : t.Bounded) :
    ∀ c ∈ fmtTimestamp t, c.isDigit = true ∨ c = '_' := by
  obtain ⟨d8, d6, heq, -, -, h8, h6⟩ := fmtTimestamp_shape h
  rw [heq]
  intro c hc
  rcases List.mem_append.mp hc with h | h
  · exact Or.inl (h8 c h)
  · rcases List.mem_cons.mp h with h | h
    · exact Or.inr h
    · exact Or.inl (h6 c h)

/-- A bounded rendering is 15 characters long. -/
lemma fmtTimestamp_length {t : Timestamp} (h : t.Bounded) :
    (fmtTimestamp t).length = 15 := by
  obtain ⟨d8, d6, heq, h8, h6, -, -⟩ := fmtTimestamp_shape h
  rw [heq]; simp [h8, h6]

/-- Distinct bounded timestamps render to distinct strings. -/
lemma fmtTimestamp_inj {t1 t2 : Timestamp} (h1 : t1.Bounded) (h2 : t2.Bounded)
    (hne : t1 ≠ t2) : fmtTimestamp t1 ≠ fmtTimestamp t2 := by
  intro heq
  apply hne
  obtain ⟨hy1, hmo1, hd1, hh1, hmi1, hs1⟩ := h1
  obtain ⟨hy2, hmo2, hd2, hh2, hmi2, hs2⟩ := h2
  unfold fmtTimestamp at heq
  simp only [List.append_assoc] at heq
  have ly : (padZeros 4 (natToDigitList t1.year)).length =
      (padZeros 4 (natToDigitList t2.year)).length := by
    rw [padZeros_four hy1, padZeros_four hy2]; rfl
  obtain ⟨ey, heq⟩ := List.append_inj heq ly
  have lmo : (padZeros 2 (natToDigitList t1.month)).length =
      (padZeros 2 (natToDigitList t2.month)).length := by
    rw [padZeros_two hmo1, padZeros_two hmo2]; rfl
  obtain ⟨emo, heq⟩ := List.append_inj heq lmo
  have ld : (padZeros 2 (natToDigitList t1.day)).length =
      (padZeros 2 (natToDigitList t2.day)).length := by
    rw [padZeros_two hd1, padZeros_two hd2]; rfl
  obtain ⟨ed, heq⟩ := List.append_inj heq ld
  replace heq := List.tail_eq_of_cons_eq heq
  have lh : (padZeros 2 (natToDigitList t1.hour)).length =
      (padZeros 2 (natToDigitList t2.hour)).length := by
    rw [padZeros_two hh1, padZeros_two hh2]; rfl
  obtain ⟨eh, heq⟩ := List.append_inj heq lh
  have lmi : (padZeros 2 (natToDigitList t1.minute)).length =
      (padZeros 2 (natToDigitList t2.minute)).length := by
    rw [padZeros_two hmi1, padZeros_two hmi2]; rfl
  obtain ⟨emi, es⟩ := List.append_inj heq lmi
  obtain ⟨y1, mo1, d1, h1, mi1, s1⟩ := t1
  obtain ⟨y2, mo2, d2, h2, mi2, s2⟩ := t2
  simp only at ey emo ed eh emi es hy1 hmo1 hd1 hh1 hmi1 hs1 hy2 hmo2 hd2 hh2 hmi2 hs2
  have := padZeros_four_inj hy1 hy2 ey
  have := padZeros_two_inj hmo1 hmo2 emo
  have := padZeros_two_inj hd1 hd2 ed
  have := padZeros_two_inj hh1 hh2 eh
  have := padZeros_two_inj hmi1 hmi2 emi
  have := padZeros_two_inj hs1 hs2 es
  simp_all

/-! ## Path lemmas: `filepath.Base`, `filepath.Clean`, `filepath.Join` -/

lemma afterLastSlash_not_mem (s : List Char) : '/' ∉ afterLastSlash s := by
  induction s with
  | nil => simp [afterLastSlash]
  | cons c rest ih =>
    simp only [afterLastSlash]
    by_cases hr : '/' ∈ rest
    · simp [hr, ih]
    · by_cases hc : c = '/'
      · simp [hr, hc]
      · simp [hr, hc]
        exact fun h => hc h.symm

lemma getLast?_cons_ne_nil {c : Char} {rest : List Char} (h : rest ≠ []) :
    (c :: rest).getLast? = rest.getLast? := by
  rcases List.eq_nil_or_concat rest with hr | ⟨r0, a, hr⟩
  · exact absurd hr h
  · subst hr
    rw [List.concat_eq_append, ← List.cons_append, List.getLast?_concat,
      List.getLast?_concat]

lemma afterLastSlash_ne_nil {s : List Char} (hne : s ≠ [])
    (hlast : s.getLast? ≠ some '/') : afterLastSlash s ≠ [] := by
  induction s with
  | nil => exact absurd rfl hne
  | cons c rest ih =>
    simp only [afterLastSlash]
    rcases List.eq_nil_or_concat rest with hr | ⟨r0, a, hr⟩
    · subst hr
      have hc : c ≠ '/' := by
        intro h
        apply hlast
        rw [h]
        rfl
      simp [hc]
    · have hrne : rest ≠ [] := by subst hr; simp
      have hlast2 : rest.getLast? ≠ some '/' := by
        rwa [getLast?_cons_ne_nil hrne] at hlast
      by_cases hcont : '/' ∈ rest
      · simp [hcont]; exact ih hrne hlast2
      · by_cases hc : c = '/'
        · simp [hcont, hc]; exact hrne
        · simp [hcont, hc]

lemma dropTrailingSlashes_eq_self {s : List Char}
    (hlast : s.getLast? ≠ some '/') : dropTrailingSlashes s = s := by
  unfold dropTrailingSlashes
  rcases hs : s.reverse with _ | ⟨c, t⟩
  · simpa using congrArg List.reverse hs
  · have hc : c ≠ '/' := by
      intro h
      apply hlast
      rw [← List.head?_reverse, hs, h]
      rfl
    rw [List.dropWhile_cons, if_neg (by simp [hc]), ← hs, List.reverse_reverse]

/-- `filepath.Base` on a nonempty path not ending in `'/'` is the suffix
after the last `'/'`. -/
lemma filepathBase_eq {s : List Char} (hne : s ≠ [])
    (hlast : s.getLast? ≠ some '/') : filepathBase s = afterLastSlash s := by
  unfold filepathBase
  rw [if_neg hne]
  simp only [dropTrailingSlashes_eq_self hlast]
  rw [if_neg hne]

/-- A filename accepted by the extension check (line 83 of `main.go`) is
nonempty and its last character lowercases to `'b'`, hence is not `'/'`. -/
lemma extensionCheck_last {f : List Char}
    (h : goHasSuffix (goToLower f) (goStr ".epub") = true) :
    f ≠ [] ∧ f.getLast? ≠ some '/' := by
  rw [goHasSuffix, List.isSuffixOf_iff_suffix] at h
  obtain ⟨p, hp⟩ := h
  have hfne : f ≠ [] := by
    intro h0
    rw [h0] at hp
    simp [goToLower, goStr] at hp
  refine ⟨hfne, ?_⟩
  have hlast : (goToLower f).getLast? = some 'b' := by
    rw [← hp, show (goStr ".epub") = ['.', 'e', 'p', 'u'] ++ ['b'] from rfl,
      ← List.append_assoc]
    exact List.getLast?_concat _
  rw [goToLower, List.getLast?_map] at hlast
  intro hf
  rw [hf] at hlast
  simp at hlast

lemma base_of_extension {f : List Char}
    (h : goHasSuffix (goToLower f) (goStr ".epub") = true) :
    filepathBase f = afterLastSlash f ∧ filepathBase f ≠ [] ∧
    '/' ∉ filepathBase f := by
  obtain ⟨hne, hlast⟩ := extensionCheck_last h
  refine ⟨filepathBase_eq hne hlast, ?_, ?_⟩
  · rw [filepathBase_eq hne hlast]
    exact afterLastSlash_ne_nil hne hlast
  · rw [filepathBase_eq hne hlast]
    exact afterLastSlash_not_mem f

lemma splitSlash_ne_nil (s : List Char) : splitSlash s ≠ [] := by
  cases s with
  | nil => simp [splitSlash]
  | cons c rest =>
    rw [splitSlash]
    by_cases hc : c = '/'
    · simp [hc]
    · simp only [hc, if_false]
      rcases splitSlash rest with _ | ⟨a, t⟩ <;> simp

lemma splitSlash_no_slash {s : List Char} (h : '/' ∉ s) :
    splitSlash s = [s] := by
  induction s with
  | nil => rfl
  | cons c rest ih =>
    simp only [List.mem_cons, not_or] at h
    rw [splitSlash, if_neg (fun hh => h.1 hh.symm), ih h.2]

lemma splitSlash_slash (s : List Char) :
    splitSlash ('/' :: s) = [] :: splitSlash s := by
  rw [splitSlash]; simp

lemma splitSlash_char {c : Char} (hc : c ≠ '/') (s : List Char) :
    splitSlash (c :: s) =
      (c :: (splitSlash s).headI) :: (splitSlash s).tail := by
  rw [splitSlash]
  simp only [hc, if_false]
  rcases h : splitSlash s with _ | ⟨a, t⟩
  · exact absurd h (splitSlash_ne_nil s)
  · simp [List.headI]

/-- The segments of `"/app/uploads/" ++ n` for slash-free `n`. -/
lemma splitSlash_uploads {n : List Char} (h : '/' ∉ n) :
    splitSlash (goStr "/app/uploads/" ++ n) =
      [[], goStr "app", goStr "uploads", n] := by
  have hn := splitSlash_no_slash h
  have e : goStr "/app/uploads/" ++ n =
      '/' :: 'a' :: 'p' :: 'p' :: '/' :: 'u' :: 'p' :: 'l' :: 'o' :: 'a' ::
      'd' :: 's' :: '/' :: n := rfl
  rw [e, splitSlash_slash, splitSlash_char (by decide), splitSlash_char (by decide),
    splitSlash_char (by decide), splitSlash_slash, splitSlash_char (by decide),
    splitSlash_char (by decide), splitSlash_char (by decide), splitSlash_char (by decide),
    splitSlash_char (by decide), splitSlash_char (by decide), splitSlash_char (by decide),
    splitSlash_slash, hn]
  rfl

lemma intercalate_three (a b n : List Char) :
    ['/'].intercalate [a, b, n] = a ++ '/' :: (b ++ '/' :: n) := by
  simp [List.intercalate, List.intersperse]

/-- `filepath.Join(UPLOAD_DIR, n)` for a slash-free element `n` longer
than two characters: plain concatenation under the root. -/
lemma filepathJoin_uploads {n : List Char} (hs : '/' ∉ n)
    (hlen : 2 < n.length) : filepathJoin UPLOAD_DIR n = goStr "/app/uploads/" ++ n := by
  have hne : n ≠ [] := by intro h; rw [h] at hlen; simp at hlen
  have hdot : n ≠ goStr "." := by
    intro h; rw [h] at hlen; simp [goStr] at hlen
  have hdotdot : n ≠ goStr ".." := by
    intro h; rw [h] at hlen; simp [goStr] at hlen
  rw [filepathJoin, if_neg (by decide : ¬ UPLOAD_DIR = []), if_neg hne]
  have e : UPLOAD_DIR ++ '/' :: n = goStr "/app/uploads/" ++ n := rfl
  rw [e, filepathClean]
  have hne2 : goStr "/app/uploads/" ++ n ≠ [] := by simp [goStr]
  rw [if_neg hne2]
  simp only [splitSlash_uploads hs]
  rw [show (decide ((goStr "/app/uploads/" ++ n).head? = some '/')) = true from rfl]
  have h1 : cleanPush (true : Bool) [] [] = [] := by decide
  have h2 : cleanPush (true : Bool) [] (goStr "app") = [goStr "app"] := by decide
  have h3 : cleanPush (true : Bool) [goStr "app"] (goStr "uploads") =
      [goStr "uploads", goStr "app"] := by decide
  have h4 : cleanPush (true : Bool) [goStr "uploads", goStr "app"] n =
      [n, goStr "uploads", goStr "app"] := by
    rw [cleanPush.eq_def, if_neg (fun hh => hh.elim hne hdot), if_neg hdotdot]
  simp only [List.foldl, h1, h2, h3, h4]
  rw [if_pos (show (goStr "/app/uploads/" ++ n).head? = some '/' from rfl)]
  rw [if_neg (by simp)]
  rw [show [n, goStr "uploads", goStr "app"].reverse = [goStr "app", goStr "uploads", n] from rfl]
  rw [intercalate_three]
  rfl

/-! ## Branch equations for `uploadHandler` -/

lemma uploadHandler_notPost {apiKey : List Char} {r : HttpRequest}
    {ts : Timestamp} {f : Faults} {fs : Fs} (hm : r.method ≠ goStr "POST") :
    uploadHandler apiKey r ts f fs =
      ⟨405, goStr "Method not allowed\n", fs, false, false⟩ := by
  unfold uploadHandler
  rw [if_pos hm]

lemma uploadHandler_badKey {apiKey : List Char} {r : HttpRequest}
    {ts : Timestamp} {f : Faults} {fs : Fs} (hm : r.method = goStr "POST")
    (hk : queryGet r.query_api_key ≠ apiKey) :
    uploadHandler apiKey r ts f fs =
      ⟨401, goStr "Invalid API key\n", fs, true, false⟩ := by
  unfold uploadHandler
  rw [if_neg (not_not_intro hm), if_pos hk]

lemma uploadHandler_badForm {apiKey : List Char} {r : HttpRequest}
    {ts : Timestamp} {f : Faults} {fs : Fs} (hm : r.method = goStr "POST")
    (hk : queryGet r.query_api_key = apiKey)
    (hform : MAX_FILE_SIZE < r.bodySize ∨ r.multipartValid = false) :
    uploadHandler apiKey r ts f fs =
      ⟨400, goStr "File too large or invalid form\n", fs, true, true⟩ := by
  unfold uploadHandler
  rw [if_neg (not_not_intro hm), if_neg (not_not_intro hk), if_pos hform]

lemma uploadHandler_noField {apiKey : List Char} {r : HttpRequest}
    {ts : Timestamp} {f : Faults} {fs : Fs} (hm : r.method = goStr "POST")
    (hk : queryGet r.query_api_key = apiKey)
    (hform : ¬ (MAX_FILE_SIZE < r.bodySize ∨ r.multipartValid = false))
    (hp : r.epubPart = Option.none) :
    uploadHandler apiKey r ts f fs =
      ⟨400, goStr "Failed to get uploaded file\n", fs, true, true⟩ := by
  unfold uploadHandler
  rw [if_neg (not_not_intro hm), if_neg (not_not_intro hk), if_neg hform, hp]

lemma uploadHandler_badExt {apiKey fn : List Char} {content : List Nat}
    {r : HttpRequest} {ts : Timestamp} {f : Faults} {fs : Fs}
    (hm : r.method = goStr "POST") (hk : queryGet r.query_api_key = apiKey)
    (hform : ¬ (MAX_FILE_SIZE < r.bodySize ∨ r.multipartValid = false))
    (hp : r.epubPart = some (fn, content))
    (hext : goHasSuffix (goToLower fn) (goStr ".epub") = false) :
    uploadHandler apiKey r ts f fs =
      ⟨400, goStr "File must be an EPUB\n", fs, true, true⟩ := by
  unfold uploadHandler
  rw [if_neg (not_not_intro hm), if_neg (not_not_intro hk), if_neg hform, hp]
  exact if_pos (by simp [hext])

lemma uploadHandler_createFail {apiKey fn : List Char} {content : List Nat}
    {r : HttpRequest} {ts : Timestamp} {f : Faults} {fs : Fs}
    (hm : r.method = goStr "POST") (hk : queryGet r.query_api_key = apiKey)
    (hform : ¬ (MAX_FILE_SIZE < r.bodySize ∨ r.multipartValid = false))
    (hp : r.epubPart = some (fn, content))
    (hext : goHasSuffix (goToLower fn) (goStr ".epub") = true)
    (hcreate : f.createFails = true) :
    uploadHandler apiKey r ts f fs =
      ⟨500, goStr "Failed to save file\n", fs, true, true⟩ := by
  unfold uploadHandler
  rw [if_neg (not_not_intro hm), if_neg (not_not_intro hk), if_neg hform]
  simp only [hp]
  rw [if_neg (not_not_intro hext), if_pos hcreate]

lemma uploadHandler_copyFail {apiKey fn : List Char} {content : List Nat}
    {n : Nat} {r : HttpRequest} {ts : Timestamp} {f : Faults} {fs : Fs}
    (hm : r.method = goStr "POST") (hk : queryGet r.query_api_key = apiKey)
    (hform : ¬ (MAX_FILE_SIZE < r.bodySize ∨ r.multipartValid = false))
    (hp : r.epubPart = some (fn, content))
    (hext : goHasSuffix (goToLower fn) (goStr ".epub") = true)
    (hcreate : f.createFails = false) (hcopy : f.copyFailsAfter = some n) :
    uploadHandler apiKey r ts f fs =
      ⟨500, goStr "Failed to save file\n",
        (if f.removeFails then
          fsSet (fsSet fs (destPathOf ts fn) []) (destPathOf ts fn) (content.take n)
        else
          fsRemove (fsSet (fsSet fs (destPathOf ts fn) []) (destPathOf ts fn)
            (content.take n)) (destPathOf ts fn)),
        true, true⟩ := by
  unfold uploadHandler
  rw [if_neg (not_not_intro hm), if_neg (not_not_intro hk), if_neg hform]
  simp only [hp]
  rw [if_neg (not_not_intro hext), if_neg (by simp [hcreate])]
  simp only [hcopy]

lemma uploadHandler_success {apiKey fn : List Char} {content : List Nat}
    {r : HttpRequest} {ts : Timestamp} {f : Faults} {fs : Fs}
    (hm : r.method = goStr "POST") (hk : queryGet r.query_api_key = apiKey)
    (hform : ¬ (MAX_FILE_SIZE < r.bodySize ∨ r.multipartValid = false))
    (hp : r.epubPart = some (fn, content))
    (hext : goHasSuffix (goToLower fn) (goStr ".epub") = true)
    (hcreate : f.createFails = false) (hcopy : f.copyFailsAfter = Option.none) :
    uploadHandler apiKey r ts f fs =
      ⟨200, successJson (safeName ts fn) content.length,
        fsSet (fsSet fs (destPathOf ts fn) []) (destPathOf ts fn) content,
        true, true⟩ := by
  unfold uploadHandler
  rw [if_neg (not_not_intro hm), if_neg (not_not_intro hk), if_neg hform]
  simp only [hp]
  rw [if_neg (not_not_intro hext), if_neg (by simp [hcreate])]
  simp only [hcopy]

/-! ## Stored-name and filesystem lemmas -/

lemma isDigit_ne_slash {c : Char} (h : c.isDigit = true) : c ≠ '/' := by
  intro he
  subst he
  exact absurd h (by decide)

lemma safeName_no_slash {ts : Timestamp} {fn : List Char} (hb : ts.Bounded)
    (hext : goHasSuffix (goToLower fn) (goStr ".epub") = true) :
    '/' ∉ safeName ts fn := by
  obtain ⟨-, -, hbase⟩ := base_of_extension hext
  intro hmem
  rw [safeName] at hmem
  rcases List.mem_append.mp hmem with h | h
  · rcases fmtTimestamp_chars hb '/' h with hd | hu
    · exact isDigit_ne_slash hd rfl
    · exact absurd hu (by decide)
  · rcases List.mem_cons.mp h with h | h
    · exact absurd h (by decide)
    · exact hbase h

lemma safeName_length {ts : Timestamp} {fn : List Char} (hb : ts.Bounded) :
    2 < (safeName ts fn).length := by
  rw [safeName, List.length_append, fmtTimestamp_length hb]
  simp only [List.length_cons]
  omega

lemma destPathOf_eq {ts : Timestamp} {fn : List Char} (hb : ts.Bounded)
    (hext : goHasSuffix (goToLower fn) (goStr ".epub") = true) :
    destPathOf ts fn = goStr "/app/uploads/" ++ safeName ts fn := by
  rw [destPathOf]
  exact filepathJoin_uploads (safeName_no_slash hb hext) (safeName_length hb)

lemma safeName_inj {ts1 ts2 : Timestamp} {fn : List Char}
    (hb1 : ts1.Bounded) (hb2 : ts2.Bounded) (hne : ts1 ≠ ts2) :
    safeName ts1 fn ≠ safeName ts2 fn := by
  intro h
  rw [safeName, safeName] at h
  have hl : (fmtTimestamp ts1).length = (fmtTimestamp ts2).length := by
    rw [fmtTimestamp_length hb1, fmtTimestamp_length hb2]
  obtain ⟨hf, -⟩ := List.append_inj h hl
  exact fmtTimestamp_inj hb1 hb2 hne hf

lemma destPathOf_inj {ts1 ts2 : Timestamp} {fn : List Char}
    (hb1 : ts1.Bounded) (hb2 : ts2.Bounded) (hne : ts1 ≠ ts2)
    (hext : goHasSuffix (goToLower fn) (goStr ".epub") = true) :
    destPathOf ts1 fn ≠ destPathOf ts2 fn := by
  rw [destPathOf_eq hb1 hext, destPathOf_eq hb2 hext]
  intro h
  exact safeName_inj hb1 hb2 hne (List.append_cancel_left h)

lemma fsGet_set_self (fs : Fs) (p : List Char) (c : List Nat) :
    fsGet (fsSet fs p c) p = some c := by
  simp [fsGet, fsSet, List.find?]

lemma fsGet_set_ne {p q : List Char} (fs : Fs) (c : List Nat) (h : p ≠ q) :
    fsGet (fsSet fs q c) p = fsGet fs p := by
  simp only [fsGet, fsSet, List.find?]
  rw [show (decide ((q, c).1 = p)) = false by simp; exact fun hh => h hh.symm]

lemma fsGet_remove_self (fs : Fs) (p : List Char) :
    fsGet (fsRemove fs p) p = Option.none := by
  induction fs with
  | nil => rfl
  | cons e rest ih =>
    simp only [fsGet, fsRemove, List.filter_cons] at ih ⊢
    by_cases he : e.1 = p
    · rw [if_neg (by simp [he])]
      exact ih
    · rw [if_pos (by simp [he]), List.find?_cons,
        show (decide (e.1 = p)) = false by simp [he]]
      exact ih

lemma notBadForm {r : HttpRequest} (hsize : r.bodySize ≤ MAX_FILE_SIZE)
    (hvalid : r.multipartValid = true) :
    ¬ (MAX_FILE_SIZE < r.bodySize ∨ r.multipartValid = false) := by
  rintro (h | h)
  · exact absurd h (not_lt.mpr hsize)
  · rw [hvalid] at h
    cases h

/-! ## Claim theorems -/

/-- C7: a request to /upload whose method is not POST gets a 405
response, no file is created (the filesystem is unchanged), the
credential is never compared and the body is never read. -/
theorem claim_C7 (apiKey : List Char) (r : HttpRequest) (ts : Timestamp)
    (f : Faults) (fs : Fs) (hm : r.method ≠ goStr "POST") :
    (uploadHandler apiKey r ts f fs).status = 405 ∧
    (uploadHandler apiKey r ts f fs).fs = fs ∧
    (uploadHandler apiKey r ts f fs).authChecked = false ∧
    (uploadHandler apiKey r ts f fs).bodyRead = false := by
  rw [uploadHandler_notPost hm]
  exact ⟨rfl, rfl, rfl, rfl⟩

theorem claim_C7_witness :
    (uploadHandler (goStr "secret")
      ⟨goStr "GET", some (goStr "secret"), 3, true, Option.none⟩
      ⟨2024, 5, 6, 7, 8, 9⟩ Faults.none []).status = 405 ∧
    (uploadHandler (goStr "secret")
      ⟨goStr "GET", some (goStr "secret"), 3, true, Option.none⟩
      ⟨2024, 5, 6, 7, 8, 9⟩ Faults.none []).fs = [] ∧
    (uploadHandler (goStr "secret")
      ⟨goStr "GET", some (goStr "secret"), 3, true, Option.none⟩
      ⟨2024, 5, 6, 7, 8, 9⟩ Faults.none []).authChecked = false ∧
    (uploadHandler (goStr "secret")
      ⟨goStr "GET", some (goStr "secret"), 3, true, Option.none⟩
      ⟨2024, 5, 6, 7, 8, 9⟩ Faults.none []).bodyRead = false :=
  claim_C7 _ _ _ _ _ (by decide)

/-- C3: a POST whose `api_key` query parameter is missing or different
from the configured (nonempty) secret gets a 401 response, the body is
never read, and no file is created. -/
theorem claim_C3 (apiKey : List Char) (r : HttpRequest) (ts : Timestamp)
    (f : Faults) (fs : Fs) (hkey : apiKey ≠ [])
    (hm : r.method = goStr "POST")
    (hbad : r.query_api_key = Option.none ∨
      ∃ k, r.query_api_key = some k ∧ k ≠ apiKey) :
    (uploadHandler apiKey r ts f fs).status = 401 ∧
    (uploadHandler apiKey r ts f fs).bodyRead = false ∧
    (uploadHandler apiKey r ts f fs).fs = fs := by
  have hk : queryGet r.query_api_key ≠ apiKey := by
    rcases hbad with h | ⟨k, hk, hne⟩
    · rw [h]
      exact fun hh => hkey hh.symm
    · rw [hk]
      exact hne
  rw [uploadHandler_badKey hm hk]
  exact ⟨rfl, rfl, rfl⟩

theorem claim_C3_witness :
    (goStr "secret" ≠ [] ∧
      (uploadHandler (goStr "secret")
        ⟨goStr "POST", Option.none, 3, true, Option.none⟩
        ⟨2024, 5, 6, 7, 8, 9⟩ Faults.none []).status = 401 ∧
      (uploadHandler (goStr "secret")
        ⟨goStr "POST", Option.none, 3, true, Option.none⟩
        ⟨2024, 5, 6, 7, 8, 9⟩ Faults.none []).bodyRead = false ∧
      (uploadHandler (goStr "secret")
        ⟨goStr "POST", Option.none, 3, true, Option.none⟩
        ⟨2024, 5, 6, 7, 8, 9⟩ Faults.none []).fs = []) ∧
    (uploadHandler (goStr "secret")
      ⟨goStr "POST", some (goStr "wrong"), 3, true, Option.none⟩
      ⟨2024, 5, 6, 7, 8, 9⟩ Faults.none []).status = 401 :=
  ⟨⟨by decide,
    claim_C3 _ _ _ _ _ (by decide) rfl (Or.inl rfl)⟩,
   (claim_C3 (goStr "secret")
      ⟨goStr "POST", some (goStr "wrong"), 3, true, Option.none⟩
      ⟨2024, 5, 6, 7, 8, 9⟩ Faults.none [] (by decide) rfl
      (Or.inr ⟨goStr "wrong", rfl, by decide⟩)).1⟩

/-- C4: an authenticated POST whose body exceeds the 50 MiB ceiling
(`MAX_FILE_SIZE`) gets a 400 response and the filesystem is unchanged —
the oversized body is rejected at the multipart-parsing stage, before
any file creation. -/
theorem claim_C4 (apiKey : List Char) (r : HttpRequest) (ts : Timestamp)
    (f : Faults) (fs : Fs) (hm : r.method = goStr "POST")
    (hk : queryGet r.query_api_key = apiKey)
    (hsize : MAX_FILE_SIZE < r.bodySize) :
    (uploadHandler apiKey r ts f fs).status = 400 ∧
    (uploadHandler apiKey r ts f fs).fs = fs := by
  rw [uploadHandler_badForm hm hk (Or.inl hsize)]
  exact ⟨rfl, rfl⟩

theorem claim_C4_witness :
    (uploadHandler (goStr "secret")
      ⟨goStr "POST", some (goStr "secret"), 52428801, true,
        some (goStr "book.epub", [1])⟩
      ⟨2024, 5, 6, 7, 8, 9⟩ Faults.none []).status = 400 ∧
    (uploadHandler (goStr "secret")
      ⟨goStr "POST", some (goStr "secret"), 52428801, true,
        some (goStr "book.epub", [1])⟩
      ⟨2024, 5, 6, 7, 8, 9⟩ Faults.none []).fs = [] :=
  claim_C4 _ _ _ _ _ rfl rfl (by decide)

/-- C5: an authenticated POST whose declared filename does not end in
".epub" under the case-insensitive comparison gets a 400 response
regardless of the content bytes, and the filesystem is unchanged. -/
theorem claim_C5 (apiKey fn : List Char) (content : List Nat)
    (r : HttpRequest) (ts : Timestamp) (f : Faults) (fs : Fs)
    (hm : r.method = goStr "POST") (hk : queryGet r.query_api_key = apiKey)
    (hsize : r.bodySize ≤ MAX_FILE_SIZE) (hvalid : r.multipartValid = true)
    (hp : r.epubPart = some (fn, content))
    (hext : goHasSuffix (goToLower fn) (goStr ".epub") = false) :
    (uploadHandler apiKey r ts f fs).status = 400 ∧
    (uploadHandler apiKey r ts f fs).fs = fs := by
  rw [uploadHandler_badExt hm hk (notBadForm hsize hvalid) hp hext]
  exact ⟨rfl, rfl⟩

theorem claim_C5_witness :
    (uploadHandler (goStr "secret")
      ⟨goStr "POST", some (goStr "secret"), 9, true,
        some (goStr "virus.exe", [9, 9])⟩
      ⟨2024, 5, 6, 7, 8, 9⟩ Faults.none []).status = 400 ∧
    (uploadHandler (goStr "secret")
      ⟨goStr "POST", some (goStr "secret"), 9, true,
        some (goStr "virus.exe", [9, 9])⟩
      ⟨2024, 5, 6, 7, 8, 9⟩ Faults.none []).fs = [] :=
  claim_C5 _ _ _ _ _ _ _ rfl rfl (by decide) rfl rfl (by decide)

/-- C2: when the streaming copy fails after `n` bytes were written, the
response is 500 in every case; when the cleanup deletion succeeds the
destination path no longer exists, and a failing deletion is swallowed —
the status is 500 regardless. -/
theorem claim_C2 (apiKey fn : List Char) (content : List Nat) (n : Nat)
    (r : HttpRequest) (ts : Timestamp) (f : Faults) (fs : Fs)
    (hm : r.method = goStr "POST") (hk : queryGet r.query_api_key = apiKey)
    (hsize : r.bodySize ≤ MAX_FILE_SIZE) (hvalid : r.multipartValid = true)
    (hp : r.epubPart = some (fn, content))
    (hext : goHasSuffix (goToLower fn) (goStr ".epub") = true)
    (hcreate : f.createFails = false) (hcopy : f.copyFailsAfter = some n) :
    (uploadHandler apiKey r ts f fs).status = 500 ∧
    (f.removeFails = false →
      fsGet (uploadHandler apiKey r ts f fs).fs (destPathOf ts fn) =
        Option.none) := by
  rw [uploadHandler_copyFail hm hk (notBadForm hsize hvalid) hp hext hcreate hcopy]
  refine ⟨rfl, fun hrm => ?_⟩
  simp only [hrm, Bool.false_eq_true, if_false]
  exact fsGet_remove_self _ _

theorem claim_C2_witness :
    ((uploadHandler (goStr "secret")
      ⟨goStr "POST", some (goStr "secret"), 9, true,
        some (goStr "book.epub", [1, 2, 3])⟩
      ⟨2024, 5, 6, 7, 8, 9⟩ ⟨false, some 1, false⟩ []).status = 500 ∧
    ((⟨false, some 1, false⟩ : Faults).removeFails = false →
      fsGet (uploadHandler (goStr "secret")
        ⟨goStr "POST", some (goStr "secret"), 9, true,
          some (goStr "book.epub", [1, 2, 3])⟩
        ⟨2024, 5, 6, 7, 8, 9⟩ ⟨false, some 1, false⟩ []).fs
        (destPathOf ⟨2024, 5, 6, 7, 8, 9⟩ (goStr "book.epub")) =
        Option.none)) ∧
    (uploadHandler (goStr "secret")
      ⟨goStr "POST", some (goStr "secret"), 9, true,
        some (goStr "book.epub", [1, 2, 3])⟩
      ⟨2024, 5, 6, 7, 8, 9⟩ ⟨false, some 1, true⟩ []).status = 500 :=
  ⟨claim_C2 _ _ _ 1 _ _ _ _ rfl rfl (by decide) rfl rfl (by decide) rfl rfl,
   (claim_C2 (goStr "secret")
      (goStr "book.epub") [1, 2, 3] 1
      ⟨goStr "POST", some (goStr "secret"), 9, true,
        some (goStr "book.epub", [1, 2, 3])⟩
      ⟨2024, 5, 6, 7, 8, 9⟩ ⟨false, some 1, true⟩ [] rfl rfl (by decide) rfl rfl
      (by decide) rfl rfl).1⟩

/-- C6: for every client-supplied filename accepted by the extension
check (directory components or not), the stored name is the timestamp,
an underscore, and the basename of the supplied name with all directory
components stripped; the derived destination path is that name placed
directly under the upload root, with no separator or `..` left in the
final component — hence strictly inside `/app/uploads`. -/
theorem claim_C6 (ts : Timestamp) (fn : List Char) (hb : ts.Bounded)
    (hext : goHasSuffix (goToLower fn) (goStr ".epub") = true) :
    destPathOf ts fn = goStr "/app/uploads/" ++ safeName ts fn ∧
    safeName ts fn = fmtTimestamp ts ++ '_' :: filepathBase fn ∧
    safeName ts fn ≠ [] ∧ '/' ∉ safeName ts fn ∧ '/' ∉ filepathBase fn := by
  obtain ⟨-, -, hbase⟩ := base_of_extension hext
  refine ⟨destPathOf_eq hb hext, rfl, ?_, safeName_no_slash hb hext, hbase⟩
  intro h
  have := congrArg List.length h
  rw [safeName, List.length_append, fmtTimestamp_length hb] at this
  simp at this

theorem claim_C6_witness :
    destPathOf ⟨2024, 5, 6, 7, 8, 9⟩ (goStr "../../etc/passwd.epub") =
      goStr "/app/uploads/" ++
        safeName ⟨2024, 5, 6, 7, 8, 9⟩ (goStr "../../etc/passwd.epub") ∧
    safeName ⟨2024, 5, 6, 7, 8, 9⟩ (goStr "../../etc/passwd.epub") =
      fmtTimestamp ⟨2024, 5, 6, 7, 8, 9⟩ ++
        '_' :: filepathBase (goStr "../../etc/passwd.epub") ∧
    safeName ⟨2024, 5, 6, 7, 8, 9⟩ (goStr "../../etc/passwd.epub") ≠ [] ∧
    '/' ∉ safeName ⟨2024, 5, 6, 7, 8, 9⟩ (goStr "../../etc/passwd.epub") ∧
    '/' ∉ filepathBase (goStr "../../etc/passwd.epub") :=
  claim_C6 _ _ (by decide) (by decide)

/-- C1: a fully valid POST — correct credential, well-formed multipart
body within the size limit, `epub` field with declared filename
`book.epub` and content of `S` bytes — gets a 200 whose body reports
the stored name (which matches `\d{8}_\d{6}_book.epub`) and the size
`S`, and the file at the derived path holds exactly the uploaded
bytes. -/
theorem claim_C1 (apiKey : List Char) (content : List Nat) (S : Nat)
    (r : HttpRequest) (ts : Timestamp) (fs : Fs)
    (hb : ts.Bounded) (hm : r.method = goStr "POST")
    (hk : queryGet r.query_api_key = apiKey)
    (hsize : r.bodySize ≤ MAX_FILE_SIZE) (hvalid : r.multipartValid = true)
    (hp : r.epubPart = some (goStr "book.epub", content))
    (hS : content.length = S) :
    (uploadHandler apiKey r ts Faults.none fs).status = 200 ∧
    (∃ d8 d6 : List Char,
      safeName ts (goStr "book.epub") =
        d8 ++ '_' :: (d6 ++ '_' :: goStr "book.epub") ∧
      d8.length = 8 ∧ d6.length = 6 ∧
      (∀ c ∈ d8, c.isDigit = true) ∧ (∀ c ∈ d6, c.isDigit = true)) ∧
    (uploadHandler apiKey r ts Faults.none fs).responseBody =
      successJson (safeName ts (goStr "book.epub")) S ∧
    fsGet (uploadHandler apiKey r ts Faults.none fs).fs
      (destPathOf ts (goStr "book.epub")) = some content ∧
    content.length = S := by
  have hext : goHasSuffix (goToLower (goStr "book.epub")) (goStr ".epub") = true := by
    decide
  rw [uploadHandler_success hm hk (notBadForm hsize hvalid) hp hext rfl rfl]
  refine ⟨rfl, ?_, ?_, ?_, hS⟩
  · obtain ⟨d8, d6, heq, h8, h6, hd8, hd6⟩ := fmtTimestamp_shape hb
    refine ⟨d8, d6, ?_, h8, h6, hd8, hd6⟩
    rw [safeName, show filepathBase (goStr "book.epub") = goStr "book.epub" from rfl,
      heq]
    simp
  · rw [hS]
  · exact fsGet_set_self _ _ _

theorem claim_C1_witness :
    (uploadHandler (goStr "secret")
      ⟨goStr "POST", some (goStr "secret"), 9, true,
        some (goStr "book.epub", [7, 8, 9])⟩
      ⟨2024, 5, 6, 7, 8, 9⟩ Faults.none []).status = 200 ∧
    (∃ d8 d6 : List Char,
      safeName ⟨2024, 5, 6, 7, 8, 9⟩ (goStr "book.epub") =
        d8 ++ '_' :: (d6 ++ '_' :: goStr "book.epub") ∧
      d8.length = 8 ∧ d6.length = 6 ∧
      (∀ c ∈ d8, c.isDigit = true) ∧ (∀ c ∈ d6, c.isDigit = true)) ∧
    (uploadHandler (goStr "secret")
      ⟨goStr "POST", some (goStr "secret"), 9, true,
        some (goStr "book.epub", [7, 8, 9])⟩
      ⟨2024, 5, 6, 7, 8, 9⟩ Faults.none []).responseBody =
      successJson (safeName ⟨2024, 5, 6, 7, 8, 9⟩ (goStr "book.epub")) 3 ∧
    fsGet (uploadHandler (goStr "secret")
      ⟨goStr "POST", some (goStr "secret"), 9, true,
        some (goStr "book.epub", [7, 8, 9])⟩
      ⟨2024, 5, 6, 7, 8, 9⟩ Faults.none []).fs
      (destPathOf ⟨2024, 5, 6, 7, 8, 9⟩ (goStr "book.epub")) = some [7, 8, 9] ∧
    ([7, 8, 9] : List Nat).length = 3 :=
  claim_C1 _ _ _ _ _ _ (by decide) rfl rfl (by decide) rfl rfl rfl

/-- C9: two successful uploads of the same content under the same
declared filename at distinct (bounded) timestamps derive distinct
stored names, and after the second upload both stored artifacts exist,
each byte-identical to the uploaded content. -/
theorem claim_C9 (apiKey fn : List Char) (content : List Nat)
    (r : HttpRequest) (ts1 ts2 : Timestamp) (fs : Fs)
    (hb1 : ts1.Bounded) (hb2 : ts2.Bounded) (hts : ts1 ≠ ts2)
    (hm : r.method = goStr "POST") (hk : queryGet r.query_api_key = apiKey)
    (hsize : r.bodySize ≤ MAX_FILE_SIZE) (hvalid : r.multipartValid = true)
    (hp : r.epubPart = some (fn, content))
    (hext : goHasSuffix (goToLower fn) (goStr ".epub") = true) :
    safeName ts1 fn ≠ safeName ts2 fn ∧
    fsGet (uploadHandler apiKey r ts2 Faults.none
      (uploadHandler apiKey r ts1 Faults.none fs).fs).fs
      (destPathOf ts1 fn) = some content ∧
    fsGet (uploadHandler apiKey r ts2 Faults.none
      (uploadHandler apiKey r ts1 Faults.none fs).fs).fs
      (destPathOf ts2 fn) = some content := by
  have hpath := destPathOf_inj hb1 hb2 hts hext
  rw [uploadHandler_success hm hk (notBadForm hsize hvalid) hp hext rfl rfl,
    uploadHandler_success hm hk (notBadForm hsize hvalid) hp hext rfl rfl]
  refine ⟨safeName_inj hb1 hb2 hts, ?_, fsGet_set_self _ _ _⟩
  rw [fsGet_set_ne _ _ hpath, fsGet_set_ne _ _ hpath]
  exact fsGet_set_self _ _ _

theorem claim_C9_witness :
    safeName ⟨2024, 5, 6, 7, 8, 9⟩ (goStr "book.epub") ≠
      safeName ⟨2024, 5, 6, 7, 8, 10⟩ (goStr "book.epub") ∧
    fsGet (uploadHandler (goStr "secret")
      ⟨goStr "POST", some (goStr "secret"), 9, true,
        some (goStr "book.epub", [1, 2])⟩ ⟨2024, 5, 6, 7, 8, 10⟩ Faults.none
      (uploadHandler (goStr "secret")
        ⟨goStr "POST", some (goStr "secret"), 9, true,
          some (goStr "book.epub", [1, 2])⟩ ⟨2024, 5, 6, 7, 8, 9⟩
        Faults.none []).fs).fs
      (destPathOf ⟨2024, 5, 6, 7, 8, 9⟩ (goStr "book.epub")) = some [1, 2] ∧
    fsGet (uploadHandler (goStr "secret")
      ⟨goStr "POST", some (goStr "secret"), 9, true,
        some (goStr "book.epub", [1, 2])⟩ ⟨2024, 5, 6, 7, 8, 10⟩ Faults.none
      (uploadHandler (goStr "secret")
        ⟨goStr "POST", some (goStr "secret"), 9, true,
          some (goStr "book.epub", [1, 2])⟩ ⟨2024, 5, 6, 7, 8, 9⟩
        Faults.none []).fs).fs
      (destPathOf ⟨2024, 5, 6, 7, 8, 10⟩ (goStr "book.epub")) = some [1, 2] :=
  claim_C9 _ _ _ _ _ _ _ (by decide) (by decide) (by decide) rfl rfl
    (by decide) rfl rfl (by decide)

/-- C10: a declared filename of exactly ".epub" (no base name) passes
the suffix check, so an otherwise valid authenticated POST succeeds with
200 and the artifact is stored under `<timestamp>_.epub`. -/
theorem claim_C10 (apiKey : List Char) (content : List Nat)
    (r : HttpRequest) (ts : Timestamp) (fs : Fs)
    (hm : r.method = goStr "POST") (hk : queryGet r.query_api_key = apiKey)
    (hsize : r.bodySize ≤ MAX_FILE_SIZE) (hvalid : r.multipartValid = true)
    (hp : r.epubPart = some (goStr ".epub", content)) :
    (uploadHandler apiKey r ts Faults.none fs).status = 200 ∧
    safeName ts (goStr ".epub") = fmtTimestamp ts ++ '_' :: goStr ".epub" ∧
    fsGet (uploadHandler apiKey r ts Faults.none fs).fs
      (destPathOf ts (goStr ".epub")) = some content := by
  have hext : goHasSuffix (goToLower (goStr ".epub")) (goStr ".epub") = true := by
    decide
  rw [uploadHandler_success hm hk (notBadForm hsize hvalid) hp hext rfl rfl]
  exact ⟨rfl, rfl, fsGet_set_self _ _ _⟩

theorem claim_C10_witness :
    (uploadHandler (goStr "secret")
      ⟨goStr "POST", some (goStr "secret"), 9, true,
        some (goStr ".epub", [4, 5])⟩
      ⟨2024, 5, 6, 7, 8, 9⟩ Faults.none []).status = 200 ∧
    safeName ⟨2024, 5, 6, 7, 8, 9⟩ (goStr ".epub") =
      fmtTimestamp ⟨2024, 5, 6, 7, 8, 9⟩ ++ '_' :: goStr ".epub" ∧
    fsGet (uploadHandler (goStr "secret")
      ⟨goStr "POST", some (goStr "secret"), 9, true,
        some (goStr ".epub", [4, 5])⟩
      ⟨2024, 5, 6, 7, 8, 9⟩ Faults.none []).fs
      (destPathOf ⟨2024, 5, 6, 7, 8, 9⟩ (goStr ".epub")) = some [4, 5] :=
  claim_C10 _ _ _ _ _ rfl rfl (by decide) rfl rfl

/-! ## Lemmas for the success-body shape (C8) -/

lemma natToDigitList_ne_nil (n : Nat) : natToDigitList n ≠ [] := by
  by_cases h : n < 10
  · rw [natToDigitList_lt10 h]
    simp
  · rw [natToDigitList_ge10 h]
    simp

lemma natToDigitList_all_digit (n : Nat) :
    ∀ c ∈ natToDigitList n, c.isDigit = true := by
  induction n using Nat.strong_induction_on with
  | _ n ih =>
    by_cases h : n < 10
    · rw [natToDigitList_lt10 h]
      intro c hc
      rw [List.mem_singleton] at hc
      subst hc
      exact digitChar_isDigit h
    · rw [natToDigitList_ge10 h]
      intro c hc
      rcases List.mem_append.mp hc with hc | hc
      · exact ih (n / 10) (Nat.div_lt_self (by omega) (by omega)) c hc
      · rw [List.mem_singleton] at hc
        subst hc
        exact digitChar_isDigit (by omega)

lemma isDigit_not_needsEscape {c : Char} (h : c.isDigit = true) :
    jsonNeedsEscape c = false := by
  rw [Char.isDigit] at h
  simp only [Bool.and_eq_true, decide_eq_true_eq] at h
  rw [jsonNeedsEscape]
  simp only [decide_eq_false_iff_not]
  rintro (hc | hc | hc)
  · subst hc
    exact absurd h (by decide)
  · subst hc
    exact absurd h (by decide)
  · have h1 : ((48 : UInt32)).toNat ≤ c.val.toNat := h.1
    have h2 : c.val.toNat < ((32 : UInt32)).toNat := hc
    have e1 : ((48 : UInt32)).toNat = 48 := rfl
    have e2 : ((32 : UInt32)).toNat = 32 := rfl
    omega

lemma stripPrefix_append (p r : List Char) :
    stripPrefixChars p (p ++ r) = some r := by
  induction p with
  | nil => rfl
  | cons c cs ih => simp [stripPrefixChars, ih]

lemma scanJsonString_cons (c : Char) (s : List Char) :
    scanJsonString (c :: s) =
      if c = '"' then some ([], s)
      else if c = '\\' then
        match s with
        | [] => Option.none
        | e :: rest2 =>
          match jsonUnescape e with
          | Option.none => Option.none
          | some d => (scanJsonString rest2).map (fun p => (d :: p.1, p.2))
      else if c.val < 32 then Option.none
      else (scanJsonString s).map (fun p => (c :: p.1, p.2)) := by
  rw [scanJsonString.eq_def]

lemma scanJsonString_safe {name : List Char}
    (h : ∀ c ∈ name, jsonNeedsEscape c = false) (rest : List Char) :
    scanJsonString (name ++ '"' :: rest) = some (name, rest) := by
  induction name with
  | nil =>
    rw [List.nil_append, scanJsonString_cons, if_pos rfl]
  | cons c cs ih =>
    have hc := h c (List.mem_cons_self c cs)
    rw [jsonNeedsEscape] at hc
    simp only [decide_eq_false_iff_not] at hc
    push_neg at hc
    obtain ⟨h1, h2, h3⟩ := hc
    rw [List.cons_append, scanJsonString_cons, if_neg h1, if_neg h2, if_neg h3,
      ih (fun x hx => h x (List.mem_cons_of_mem c hx))]
    rfl

lemma takeWhile_digits {ds : List Char} (h : ∀ c ∈ ds, c.isDigit = true) :
    List.takeWhile Char.isDigit (ds ++ goStr "\x7d") = ds := by
  induction ds with
  | nil => rfl
  | cons c cs ih =>
    rw [List.cons_append, List.takeWhile_cons,
      if_pos (h c (List.mem_cons_self c cs)),
      ih (fun x hx => h x (List.mem_cons_of_mem c hx))]

lemma dropWhile_digits {ds : List Char} (h : ∀ c ∈ ds, c.isDigit = true) :
    List.dropWhile Char.isDigit (ds ++ goStr "\x7d") = goStr "\x7d" := by
  induction ds with
  | nil => rfl
  | cons c cs ih =>
    rw [List.cons_append, List.dropWhile_cons,
      if_pos (h c (List.mem_cons_self c cs)),
      ih (fun x hx => h x (List.mem_cons_of_mem c hx))]

/-- Decoding inverts the `fmt.Fprintf` rendering exactly when the name
needs no JSON escaping. -/
lemma decode_successJson {name : List Char}
    (h : ∀ c ∈ name, jsonNeedsEscape c = false) (size : Nat) :
    decodeSuccessBody (successJson name size) =
      some (name, natToDigitList size) := by
  have e : successJson name size =
      goStr "\x7b\"status\": \"success\", \"filename\": \"" ++
        (name ++ '"' ::
          (goStr ", \"size\": " ++ (natToDigitList size ++ goStr "\x7d"))) := by
    rw [successJson]
    simp only [List.append_assoc]
    rfl
  rw [e]
  simp only [decodeSuccessBody, stripPrefix_append, scanJsonString_safe h,
    takeWhile_digits (natToDigitList_all_digit size),
    dropWhile_digits (natToDigitList_all_digit size)]
  rw [if_neg]
  rintro (hc | hc)
  · exact natToDigitList_ne_nil size hc
  · exact hc rfl

lemma afterLastSlash_subset (s : List Char) : ∀ c ∈ afterLastSlash s, c ∈ s := by
  induction s with
  | nil => simp [afterLastSlash]
  | cons a rest ih =>
    intro c hc
    simp only [afterLastSlash] at hc
    by_cases hr : '/' ∈ rest
    · rw [if_pos (by simp [hr])] at hc
      exact List.mem_cons_of_mem a (ih c hc)
    · rw [if_neg (by simp [hr])] at hc
      by_cases ha : a = '/'
      · rw [if_pos ha] at hc
        exact List.mem_cons_of_mem a hc
      · rw [if_neg ha] at hc
        exact hc

/-- Every character of the stored name is JSON-safe provided every
character of the declared filename is. -/
lemma safeName_jsonSafe {ts : Timestamp} {fn : List Char} (hb : ts.Bounded)
    (hext : goHasSuffix (goToLower fn) (goStr ".epub") = true)
    (hfn : ∀ c ∈ fn, jsonNeedsEscape c = false) :
    ∀ c ∈ safeName ts fn, jsonNeedsEscape c = false := by
  intro c hc
  rw [safeName] at hc
  rcases List.mem_append.mp hc with h | h
  · rcases fmtTimestamp_chars hb c h with hd | hu
    · exact isDigit_not_needsEscape hd
    · subst hu
      decide
  · rcases List.mem_cons.mp h with h | h
    · subst h
      decide
    · obtain ⟨hbe, -, -⟩ := base_of_extension hext
      rw [hbe] at h
      exact hfn c (afterLastSlash_subset fn c h)

/-- C8 (as written): for every stored name derivable from a filename
passing the extension check, the 200 body has the exact documented JSON
shape.  Refuted: a filename may contain a double quote, which `%s`
interpolates verbatim, breaking the string literal.  At filename
`a"b.epub` the 200 body fails the shape decoder. -/
theorem claim_C8_counterexample :
    (uploadHandler (goStr "secret")
      ⟨goStr "POST", some (goStr "secret"), 9, true,
        some (goStr "a\"b.epub", [1, 2])⟩
      ⟨2024, 5, 6, 7, 8, 9⟩ Faults.none []).status = 200 ∧
    decodeSuccessBody ((uploadHandler (goStr "secret")
      ⟨goStr "POST", some (goStr "secret"), 9, true,
        some (goStr "a\"b.epub", [1, 2])⟩
      ⟨2024, 5, 6, 7, 8, 9⟩ Faults.none []).responseBody) = Option.none := by
  constructor
  · rfl
  · decide

/-- C8 (amended): for every successful upload whose declared filename
contains no character that JSON requires escaping (no `"`, no `\`, no
control character), the 200 body is a valid JSON object of the exact
shape, whose filename member decodes to the stored name and whose size
member is the decimal byte count. -/
theorem claim_C8 (apiKey fn : List Char) (content : List Nat)
    (r : HttpRequest) (ts : Timestamp) (fs : Fs) (hb : ts.Bounded)
    (hm : r.method = goStr "POST") (hk : queryGet r.query_api_key = apiKey)
    (hsize : r.bodySize ≤ MAX_FILE_SIZE) (hvalid : r.multipartValid = true)
    (hp : r.epubPart = some (fn, content))
    (hext : goHasSuffix (goToLower fn) (goStr ".epub") = true)
    (hsafe : ∀ c ∈ fn, jsonNeedsEscape c = false) :
    (uploadHandler apiKey r ts Faults.none fs).status = 200 ∧
    decodeSuccessBody (uploadHandler apiKey r ts Faults.none fs).responseBody =
      some (safeName ts fn, natToDigitList content.length) := by
  rw [uploadHandler_success hm hk (notBadForm hsize hvalid) hp hext rfl rfl]
  exact ⟨rfl, decode_successJson (safeName_jsonSafe hb hext hsafe) content.length⟩

theorem claim_C8_witness :
    (uploadHandler (goStr "secret")
      ⟨goStr "POST", some (goStr "secret"), 9, true,
        some (goStr "book.epub", [1, 2])⟩
      ⟨2024, 5, 6, 7, 8, 9⟩ Faults.none []).status = 200 ∧
    decodeSuccessBody ((uploadHandler (goStr "secret")
      ⟨goStr "POST", some (goStr "secret"), 9, true,
        some (goStr "book.epub", [1, 2])⟩
      ⟨2024, 5, 6, 7, 8, 9⟩ Faults.none []).responseBody) =
      some (safeName ⟨2024, 5, 6, 7, 8, 9⟩ (goStr "book.epub"),
        natToDigitList 2) :=
  claim_C8 (goStr "secret") (goStr "book.epub") [1, 2]
    ⟨goStr "POST", some (goStr "secret"), 9, true,
      some (goStr "book.epub", [1, 2])⟩
    ⟨2024, 5, 6, 7, 8, 9⟩ [] (by decide) rfl rfl (by decide) rfl rfl
    (by decide) (by decide)

end EpubReceiver
